import Mathlib

/-!
# go_kafka_client: verification of `utils.go`

A shallow embedding of the helpers of `utils.go` (`Hash`, `Position`,
`ShuffleArray`, `RedirectChannelsTo`, `RedirectChannelsToWithTimeout`) and the
properties proved about them.

Conventions of the embedding:

* Go `int` values that cannot overflow here (indices, counters bounded by a
  slice length) are `Nat`/`Int`; the 32-bit hash state is a `Nat` reduced
  `% 2 ^ 32` after every multiplication.
* A Go `string` is its byte sequence (`[]byte(s)`), taken from a Lean `String`
  through its UTF-8 encoding.
* A Go `panic` is an `Except.error` carrying the panic message.
-/

namespace GoKafkaClient

deriving instance DecidableEq for Except

/-! ## `Hash` (utils.go, lines 122-126) -/

/-- Initial state of `fnv.New32a()`: the constant `offset32` of `hash/fnv`. -/
def offset32 : Nat := 2166136261

/-- The constant `prime32` of `hash/fnv`. -/
def prime32 : Nat := 16777619

/-- The method `(*sum32a).Write` of `hash/fnv`:
`for _, c := range data { hash ^= sum32a(c); hash *= prime32 }` on a `uint32` state. -/
def Write (hash : Nat) (data : List UInt8) : Nat :=
  data.foldl (fun h c => ((h ^^^ c.toNat) * prime32) % 2 ^ 32) hash

/-- The Go conversion `int32(x)` of a `uint32` value `x`. -/
def int32 (x : Nat) : Int :=
  if x < 2 ^ 31 then (x : Int) else (x : Int) - 2 ^ 32

/-- The Go conversion `[]byte(s)`. -/
def bytes (s : String) : List UInt8 := s.toUTF8.data.toList

/-- `Hash`: `h := fnv.New32a(); h.Write([]byte(s)); return int32(h.Sum32())`. -/
def Hash (s : String) : Int := int32 (Write offset32 (bytes s))

/-- FNV-1a-32 as the specification words it: start from `0x811C9DC5` and, for
each byte `b` in order, replace `h` by `((h XOR b) * 0x01000193) mod 2^32`. -/
def specFNV1a32 : Nat → List UInt8 → Nat
  | h, [] => h
  | h, b :: rest => specFNV1a32 (((h ^^^ b.toNat) * 0x01000193) % 2 ^ 32) rest

/-- Two's-complement reading of a 32-bit pattern, as the specification words it:
the integer of `[-2^31, 2^31)` congruent to `x` modulo `2^32`. -/
def specSigned32 (x : Nat) : Int := ((x : Int) + 2 ^ 31) % 2 ^ 32 - 2 ^ 31

/-! ## `Position` (utils.go, lines 111-120) -/

/-- The loop `for position := 0; position < rSrc.Len(); position++` of `Position`,
entered at index `position` with the elements from that index on still to visit.
`deepEqual` stands for `reflect.DeepEqual`. -/
def Position.loop {α β : Type} (deepEqual : α → β → Bool) (needle : β) : List α → Nat → Int
  | [], _ => -1
  | x :: rest, position =>
    if deepEqual x needle then (position : Int)
    else Position.loop deepEqual needle rest (position + 1)

/-- `Position(haystack, needle)`; `haystack` is the sequence the pointer argument
points to (`reflect.ValueOf(haystack).Elem()`). -/
def Position {α β : Type} (deepEqual : α → β → Bool) (haystack : List α) (needle : β) : Int :=
  Position.loop deepEqual needle haystack 0

/-! ## `ShuffleArray` (utils.go, lines 90-98)

`src` and `dest` are pointers; what they point to lives in one store of cells, so
that the two sequences may share cells, as two Go slices (or twice the same
pointer) can. -/

/-- The store: the cell at each address. -/
abbrev Mem (α : Type) := Nat → α

/-- The array or slice a pointer argument points to (`reflect.ValueOf(p).Elem()`):
`len` cells starting at address `base`. -/
structure Seq where
  base : Nat
  len : Nat
deriving DecidableEq, Repr

/-- The method `reflect.Value.Index`: the address of element `i`, a panic when `i` is
out of range. -/
def Seq.Index (s : Seq) (i : Nat) : Except String Nat :=
  if i < s.len then .ok (s.base + i) else .error "reflect: slice index out of range"

/-- The elements of `s` in the store `mem`, in index order. -/
def Seq.read {α : Type} (s : Seq) (mem : Mem α) : List α :=
  (List.range s.len).map fun i => mem (s.base + i)

/-- The loop `for i, v := range perm { rDest.Index(v).Set(rSrc.Index(i)) }`, entered
at index `i` with the rest of `perm` still to visit. -/
def ShuffleArray.loop {α : Type} (rSrc rDest : Seq) :
    Nat → List Nat → Mem α → Except String (Mem α)
  | _, [], mem => .ok mem
  | i, v :: rest, mem =>
    match rDest.Index v, rSrc.Index i with
    | .ok d, .ok s => ShuffleArray.loop rSrc rDest (i + 1) rest (Function.update mem d (mem s))
    | .error msg, _ => .error msg
    | _, .error msg => .error msg

/-- `ShuffleArray(src, dest)` on the store `mem`; `perm` is the value returned by
`rand.Perm(rSrc.Len())`. The result is the store after the call. -/
def ShuffleArray {α : Type} (perm : List Nat) (rSrc rDest : Seq) (mem : Mem α) :
    Except String (Mem α) :=
  ShuffleArray.loop rSrc rDest 0 perm mem

/-! ## `RedirectChannelsTo`, `RedirectChannelsToWithTimeout` (utils.go, lines 128-193)

### Values as `reflect` sees them -/

/-- Element types of channels. `iface` is `interface{}`. -/
inductive GoType
  | int | bool | string | time | iface
deriving DecidableEq, Repr

/-- Go assignability of a value of type `t` to a variable of type `u`, for the
types above: identical types, or `u` is `interface{}`. -/
def GoType.AssignableTo (t u : GoType) : Bool := u == .iface || t == u

/-- The type `reflect.ChanDir`. -/
inductive ChanDir
  | RecvDir | SendDir | BothDir
deriving DecidableEq, Repr

/-- The kinds of `reflect.Kind` that the code tells apart; `Other` is every other
kind (numbers, strings, structs, maps, funcs, ...). -/
inductive Kind
  | Invalid | Array | Slice | Chan | Ptr | Interface | Other
deriving DecidableEq, Repr

/-- A `reflect.Value` that is not itself an array or slice.
`zero` is the zero Value (`reflect.ValueOf(nil)`); `ptr zero` is a nil pointer and
`iface zero` a nil interface; `other` is a value of kind `Other`. Channels carry
their direction, element type and an identity. An `interface{}` is represented by
the `reflect.Value` that `reflect.ValueOf` makes of it. -/
inductive Value
  | zero
  | other
  | chan (dir : ChanDir) (elem : GoType) (id : Nat)
  | ptr (pointee : Value)
  | iface (dynamic : Value)
deriving DecidableEq, Repr

/-- The value `reflect.ValueOf(inputChannels)`: an array, a slice, or anything else. -/
inductive Input
  | array (elems : List Value)
  | slice (elems : List Value)
  | single (v : Value)
deriving DecidableEq, Repr

/-- The method `reflect.Value.Kind`. -/
def Value.Kind : Value → Kind
  | .zero => .Invalid
  | .other => .Other
  | .chan _ _ _ => .Chan
  | .ptr _ => .Ptr
  | .iface _ => .Interface

/-- The method `reflect.Value.Kind` on `reflect.ValueOf(inputChannels)`. -/
def Input.Kind : Input → Kind
  | .array _ => .Array
  | .slice _ => .Slice
  | .single v => v.Kind

/-- The elements `input.Index(0)`, ..., `input.Index(input.Len() - 1)`. -/
def Input.elems : Input → List Value
  | .array elems => elems
  | .slice elems => elems
  | .single _ => []

/-- The method `reflect.Value.Elem`, which the code calls on values of kind `Ptr`
only: the pointee, and the zero Value for a nil pointer. -/
def Value.Elem : Value → Value
  | .ptr pointee => pointee
  | .iface dynamic => dynamic
  | _ => .zero

/-- The expression `reflect.ValueOf(v.Interface())`: `Interface` panics on the zero
Value and returns the dynamic value of a value of kind `Interface`. -/
def Value.Interface : Value → Except String Value
  | .zero => .error "reflect: call of reflect.Value.Interface on zero Value"
  | .iface dynamic => .ok dynamic
  | v => .ok v

/-- The field `Chan` of a `reflect.SelectCase`; every case of the code has
`Dir: reflect.SelectRecv`. `kill` is `reflect.ValueOf(killChannel)` and `timer` is
`reflect.ValueOf(timeoutInputChannel)` for a non-nil `timeoutInputChannel`: both
channels are made inside the call, so no value of the caller is one of them. -/
inductive CaseChan
  | val (v : Value)
  | kill
  | timer
deriving DecidableEq, Repr

/-- What the background task closes over: the select cases and `output`. -/
structure Goroutine where
  cases : List CaseChan
  output : Value
deriving DecidableEq, Repr

/-- The loop of lines 155-161 that fills `cases[i]` from `input.Index(i)`. -/
def buildCases : List Value → Except String (List CaseChan)
  | [] => .ok []
  | x :: rest =>
    match (if x.Kind = .Ptr then x.Elem.Interface else x.Interface) with
    | .error msg => .error msg
    | .ok c =>
      match buildCases rest with
      | .error msg => .error msg
      | .ok cs => .ok (.val c :: cs)

/-- `RedirectChannelsToWithTimeout(inputChannels, outputChannel, timeout)` up to the
`go` statement: a panic, or the background task that is started. `timeout` is in
nanoseconds; `timeout.Seconds() == 0` holds exactly when `timeout = 0`. -/
def RedirectChannelsToWithTimeout (input : Input) (output : Value) (timeout : Int) :
    Except String Goroutine :=
  let timeoutInputChannel : Option CaseChan := if timeout = 0 then none else some .timer
  if input.Kind ≠ .Array ∧ input.Kind ≠ .Slice then
    .error "Incorrect input channels type"
  else if output.Kind ≠ .Chan then
    .error "Incorrect output channel type"
  else
    match buildCases input.elems with
    | .error msg => .error msg
    | .ok cases =>
      let cases := cases ++ [.kill]
      let cases :=
        match timeoutInputChannel with
        | some c => cases ++ [c]
        | none => cases
      .ok { cases := cases, output := output }

/-- `RedirectChannelsTo(inputChannels, outputChannel)`. -/
def RedirectChannelsTo (input : Input) (output : Value) : Except String Goroutine :=
  RedirectChannelsToWithTimeout input output (0 * 1000000000)

/-! ### The background task -/

/-- Values carried by channels (an encoding of the Go value). -/
abbrev GoValue := Int

/-- What one call of `reflect.Select(cases)` returns: `chosen, value, ok`. -/
structure Selected where
  chosen : Nat
  value : GoValue
  ok : Bool
deriving DecidableEq, Repr

/-- A send the task completes: `timeoutOutputChannel <- t` or `output.Send(v)`.
Both block until a receiver is ready; the runs below are those in which every send
finds one. -/
inductive Event
  | timeoutNotification (t : GoValue)
  | output (v : GoValue)
deriving DecidableEq, Repr

/-- The call `reflect.Select(cases)` panics when a case holds a valid value that is
not a channel, or a send-only channel; a case holding the zero Value is ignored.
The runs below record this panic under one label, whatever text Go gives it. -/
def selectPanics (cases : List CaseChan) : Bool :=
  cases.any fun c =>
    match c with
    | .val .zero => false
    | .val (.chan dir _ _) => dir == .SendDir
    | .val _ => true
    | .kill => false
    | .timer => false

/-- The static type of the value received from a case: the element type of its
channel (`bool` for `killChannel`, `time.Time` for `timeoutInputChannel`). -/
def CaseChan.elem : CaseChan → Option GoType
  | .val (.chan _ elem _) => some elem
  | .val _ => none
  | .kill => some .bool
  | .timer => some .time

/-- The call `output.Send(value)` for a `value` of static type `t`, with a receiver
ready on an open `output`: it panics on a value that is not a channel, on a
receive-only channel, and when `t` is not assignable to the element type. -/
def Send (output : Value) (t : GoType) : Except String Unit :=
  match output with
  | .chan dir elem _ =>
    if dir = .RecvDir then .error "reflect: send on recv-only channel"
    else if t.AssignableTo elem then .ok ()
    else .error "reflect.Value.Send: value is not assignable to the element type"
  | _ => .error "reflect: call of reflect.Value.Send on non-chan Value"

/-- How one pass through the body of the inner loop ends. -/
inductive Step
  | next (cases : List CaseChan) (remaining : Nat) (events : List Event)
  | returned
  | panicked (events : List Event) (msg : String)
deriving DecidableEq, Repr

/-- The body of the inner loop (lines 171-187) once `reflect.Select(cases)` has
returned `s`. `remaining` is positive here, so `remaining -= 1` is exact on `Nat`.
The value received from `timeoutInputChannel` is a `time.Time`, so the assertion
`value.Interface().(time.Time)` succeeds. A result that `reflect.Select` cannot
return (an index out of range, a disabled case, a case that is no channel) gets the
panic that the indexing, `Interface()` or `reflect.Select` itself would raise. -/
def iteration (output : Value) (cases : List CaseChan) (remaining : Nat) (s : Selected) :
    Step :=
  match cases[s.chosen]? with
  | none => .panicked [] "index out of range"
  | some c =>
    if !s.ok then
      .next (cases.set s.chosen (.val .zero)) (remaining - 1) []
    else
      match c with
      | .val .zero => .panicked [] "reflect: call of reflect.Value.Interface on zero Value"
      | .kill => .returned
      | c =>
        let sent : List Event := if c = .timer then [.timeoutNotification s.value] else []
        match c.elem with
        | none => .panicked sent "reflect.Select: case is not a channel"
        | some t =>
          match Send output t with
          | .ok _ => .next cases remaining (sent ++ [.output s.value])
          | .error msg => .panicked sent msg

/-- Where the task stands once the outcomes given to it are used up. -/
inductive Status
  | selecting (cases : List CaseChan) (remaining : Nat)
  | returned
  | panicked (msg : String)
  | spinning
deriving DecidableEq, Repr

/-- A run of the task: where it stands and the sends it performed, in order. -/
structure Run where
  status : Status
  events : List Event
deriving DecidableEq, Repr

/-- The task from the head of the inner loop `for remaining > 0`, fed with the
successive results of `reflect.Select`. When `remaining` is zero the outer `for`
sets it to `len(cases)` again; with no case at all that loop never reaches a select
(`spinning`). With the results used up the task is blocked in `reflect.Select`
(`selecting`). -/
def innerLoop (output : Value) : List Selected → List CaseChan → Nat → Run
  | tr, cases, remaining =>
    if remaining = 0 ∧ cases.length = 0 then ⟨.spinning, []⟩
    else
      let remaining := if remaining = 0 then cases.length else remaining
      if selectPanics cases then ⟨.panicked "reflect.Select: case is not a channel", []⟩
      else
        match tr with
        | [] => ⟨.selecting cases remaining, []⟩
        | s :: rest =>
          match iteration output cases remaining s with
          | .next cases remaining events =>
            let r := innerLoop output rest cases remaining
            ⟨r.status, events ++ r.events⟩
          | .returned => ⟨.returned, []⟩
          | .panicked events msg => ⟨.panicked msg, events⟩

/-- The background task `go func() { for { remaining := len(cases); ... } }()`. -/
def goroutine (g : Goroutine) (tr : List Selected) : Run :=
  innerLoop g.output tr g.cases g.cases.length

/-- The values passed to `output.Send`, in order. -/
def outputs : List Event → List GoValue
  | [] => []
  | .output v :: rest => v :: outputs rest
  | .timeoutNotification _ :: rest => outputs rest

/-! ### Notions the properties are stated with -/

/-- An element of a `[]chan T` or `[N]chan T`: a channel. -/
def isChannel : Value → Bool
  | .chan _ _ _ => true
  | _ => false

/-- An element of a `[]*chan T`: a single-level pointer to a channel. -/
def isChannelPtr : Value → Bool
  | .ptr (.chan _ _ _) => true
  | _ => false

/-- An element of a `[]interface{}` that holds a channel or a single-level pointer
to a channel; this is the slice in which a caller can mix the two. -/
def isChannelIface : Value → Bool
  | .iface (.chan _ _ _) => true
  | .iface (.ptr (.chan _ _ _)) => true
  | _ => false

/-- The shape the specification requires of the arguments, as it words it: `inputs`
is an array or slice whose every element is a channel or a single-level pointer to
a channel (direct channels and pointers may be mixed), and `output` is a channel
that permits sends. A Go array or slice has one element type, so its elements are
all channels, all pointers, or all interface values holding one or the other. -/
def shapeRequired (input : Input) (output : Value) : Bool :=
  (input.Kind == .Array || input.Kind == .Slice) &&
  (input.elems.all isChannel || input.elems.all isChannelPtr ||
    input.elems.all isChannelIface) &&
  (match output with
    | .chan dir _ _ => dir != .RecvDir
    | _ => false)

/-- A case whose channel `reflect.Select` can report: a channel that permits
receives and has not been disabled. -/
def CaseChan.receivable : CaseChan → Bool
  | .val (.chan dir _ _) => dir != .SendDir
  | .val _ => false
  | .kill => true
  | .timer => true

/-- The result `s` is one `reflect.Select(cases)` can return: `chosen` is the index
of a case with a live channel. -/
def selectable (cases : List CaseChan) (s : Selected) : Bool :=
  match cases[s.chosen]? with
  | some c => c.receivable
  | none => false

/-- The results `tr` are ones the successive calls of `reflect.Select` can return,
from the case set `cases` on, up to the result that makes the task return. -/
def admissible : List CaseChan → List Selected → Bool
  | _, [] => true
  | cases, s :: rest =>
    selectable cases s &&
      (if s.ok then
        (if cases[s.chosen]? = some .kill then true else admissible cases rest)
      else admissible (cases.set s.chosen (.val .zero)) rest)

/-- Whether `output.Send` accepts a value of static type `t`. -/
def sends (output : Value) (t : GoType) : Bool :=
  match Send output t with
  | .ok _ => true
  | .error _ => false

/-- The task respects the data model of the specification: every input case holds
a channel that permits receives (or is disabled) and whose element type `output`
accepts. -/
def Goroutine.wellTyped (g : Goroutine) : Bool :=
  !selectPanics g.cases &&
  g.cases.all fun c =>
    match c with
    | .val (.chan _ elem _) => sends g.output elem
    | _ => true

/-- As the specification words it: the values `v` of the results with `ok = true`
on input cases (the indices below `n`) that occur before the first value received
on kill (the case of index `n`), in order. -/
def forwarded (n : Nat) (tr : List Selected) : List GoValue :=
  ((tr.takeWhile fun s => !(s.ok && s.chosen == n)).filter
    fun s => s.ok && decide (s.chosen < n)).map fun s => s.value

/-- The case set after the closures reported in `tr`. -/
def closeAll (cases : List CaseChan) (tr : List Selected) : List CaseChan :=
  tr.foldl (fun cs s => if s.ok then cs else cs.set s.chosen (.val .zero)) cases

/-- The invariant of the case set of a well-typed task with `n` inputs and no timer:
no case makes `reflect.Select` panic, the kill channel sits at index `n` only, and
every live input case sits below `n` and carries values `output` accepts. -/
def CasesOK (output : Value) (n : Nat) (cs : List CaseChan) : Prop :=
  selectPanics cs = false ∧
  ∀ i c, cs[i]? = some c →
    c = .val .zero ∨ (c = .kill ∧ i = n) ∨
      (i < n ∧ ∃ dir elem id, c = .val (.chan dir elem id) ∧ sends output elem = true)

/-! ## Theorems: `Hash` -/

theorem Write_eq_specFNV1a32 (h : Nat) (data : List UInt8) :
    Write h data = specFNV1a32 h data := by
  induction data generalizing h with
  | nil => rfl
  | cons b rest ih =>
    simp only [Write, List.foldl_cons, specFNV1a32] at ih ⊢
    exact ih _

theorem Write_lt (h : Nat) (data : List UInt8) (hh : h < 2 ^ 32) :
    Write h data < 2 ^ 32 := by
  induction data generalizing h with
  | nil => simpa [Write] using hh
  | cons b rest ih =>
    simp only [Write, List.foldl_cons] at ih ⊢
    exact ih _ (Nat.mod_lt _ (by norm_num))

theorem int32_eq_specSigned32 (x : Nat) (hx : x < 2 ^ 32) :
    int32 x = specSigned32 x := by
  unfold int32 specSigned32
  split <;> omega

/-- C7: for every string `s`, `Hash s` is the FNV-1a-32 hash of the bytes of `s`
(start `0x811C9DC5`, then `h := ((h XOR b) * 0x01000193) mod 2^32` for each byte in
order) read as a two's-complement signed 32-bit integer, and so is the hash of any
byte sequence; and `Hash "" = -2128831035`. -/
theorem Hash_eq_fnv1a32 :
    (∀ s : String, Hash s = specSigned32 (specFNV1a32 0x811C9DC5 (bytes s))) ∧
    (∀ data : List UInt8,
      int32 (Write offset32 data) = specSigned32 (specFNV1a32 0x811C9DC5 data)) ∧
    Hash "" = -2128831035 := by
  have h : ∀ data : List UInt8,
      int32 (Write offset32 data) = specSigned32 (specFNV1a32 0x811C9DC5 data) := by
    intro data
    rw [int32_eq_specSigned32 _ (Write_lt _ _ (by norm_num [offset32])), Write_eq_specFNV1a32]
    rfl
  exact ⟨fun s => h (bytes s), h, by decide⟩

/-- C8 as stated fails: `Hash "a"` is not `-469534420`. -/
theorem Hash_a_ne_claimed : Hash "a" ≠ -469534420 := by decide

/-- C8, amended: `Hash "a"` is the bit pattern `0xE40C292C` read as a signed
32-bit integer, which is `-468965076`. -/
theorem Hash_a :
    Hash "a" = int32 0xE40C292C ∧ int32 0xE40C292C = -468965076 ∧
    specSigned32 0xE40C292C = -468965076 := by
  decide

/-! ## Theorems: `Position` -/

theorem Position.loop_eq_neg_one {α β : Type} (deepEqual : α → β → Bool) (needle : β)
    (xs : List α) (p : Nat) :
    Position.loop deepEqual needle xs p = -1 ↔ ∀ x ∈ xs, deepEqual x needle = false := by
  induction xs generalizing p with
  | nil => simp [Position.loop]
  | cons x rest ih =>
    simp only [Position.loop, List.mem_cons, forall_eq_or_imp]
    by_cases hx : deepEqual x needle = true
    · simp only [hx, if_true]
      constructor
      · intro h; omega
      · intro h; simp at h
    · simp only [hx, if_false, Bool.false_eq_true]
      rw [ih]
      simp at hx
      simp [hx]

theorem Position.loop_range {α β : Type} (deepEqual : α → β → Bool) (needle : β)
    (xs : List α) (p : Nat) :
    Position.loop deepEqual needle xs p = -1 ∨
      ∃ i : Nat, i < xs.length ∧ Position.loop deepEqual needle xs p = ((p + i : Nat) : Int) := by
  induction xs generalizing p with
  | nil => simp [Position.loop]
  | cons x rest ih =>
    simp only [Position.loop]
    split
    · exact Or.inr ⟨0, by simp, by simp⟩
    · rcases ih (p + 1) with h | ⟨i, hi, h⟩
      · exact Or.inl h
      · refine Or.inr ⟨i + 1, by simpa using hi, ?_⟩
        rw [h]; push_cast; ring

theorem Position.loop_eq_index {α β : Type} (deepEqual : α → β → Bool) (needle : β)
    (xs : List α) (p i : Nat) :
    Position.loop deepEqual needle xs p = ((p + i : Nat) : Int) ↔
      ∃ h : i < xs.length, deepEqual (xs.get ⟨i, h⟩) needle = true ∧
        ∀ j (hj : j < i), deepEqual (xs.get ⟨j, hj.trans h⟩) needle = false := by
  induction xs generalizing p i with
  | nil => simp [Position.loop]; omega
  | cons x rest ih =>
    simp only [Position.loop]
    by_cases hx : deepEqual x needle = true
    · simp only [hx, if_true]
      constructor
      · intro h
        have hi : i = 0 := by omega
        subst hi
        exact ⟨by simp, by simpa using hx, by intro j hj; omega⟩
      · rintro ⟨h, _, hall⟩
        cases i with
        | zero => simp
        | succ k =>
          have := hall 0 (by omega)
          simp [hx] at this
    · simp only [hx, if_false, Bool.false_eq_true]
      cases i with
      | zero =>
        constructor
        · intro h
          exfalso
          rcases Position.loop_range deepEqual needle rest (p + 1) with h1 | ⟨i, _, h1⟩
          · rw [h1] at h; omega
          · rw [h1] at h; push_cast at h; omega
        · rintro ⟨_, h0, _⟩
          simp at h0
          exact absurd h0 hx
      | succ k =>
        have := ih (p + 1) k
        have e : ((p + (k + 1) : Nat) : Int) = ((p + 1 + k : Nat) : Int) := by push_cast; ring
        rw [e, this]
        constructor
        · rintro ⟨h, hk, hall⟩
          refine ⟨by simp; omega, by simpa using hk, ?_⟩
          intro j hj
          cases j with
          | zero => simpa using hx
          | succ j => simpa using hall j (by omega)
        · rintro ⟨h, hk, hall⟩
          refine ⟨by simp at h; omega, by simpa using hk, ?_⟩
          intro j hj
          simpa using hall (j + 1) (by omega)

/-- C9: `Position haystack needle` is the least index whose element deep-equals
`needle` when there is one (so it lies in `[0, len)` and no earlier element matches),
and it is `-1` exactly when no element matches; `Position [10,20,30] 20 = 1` and
`Position [10,20,30] 40 = -1`. -/
theorem Position_first_index {α β : Type} (deepEqual : α → β → Bool) (haystack : List α)
    (needle : β) :
    (∀ i : Nat, Position deepEqual haystack needle = (i : Int) ↔
      ∃ h : i < haystack.length, deepEqual (haystack.get ⟨i, h⟩) needle = true ∧
        ∀ j (hj : j < i), deepEqual (haystack.get ⟨j, hj.trans h⟩) needle = false) ∧
    (Position deepEqual haystack needle = -1 ∨
      ∃ i : Nat, i < haystack.length ∧ Position deepEqual haystack needle = (i : Int)) ∧
    (Position deepEqual haystack needle = -1 ↔ ∀ x ∈ haystack, deepEqual x needle = false) ∧
    Position (fun (a b : Int) => decide (a = b)) [10, 20, 30] 20 = 1 ∧
    Position (fun (a b : Int) => decide (a = b)) [10, 20, 30] 40 = -1 := by
  refine ⟨fun i => ?_, ?_, Position.loop_eq_neg_one deepEqual needle haystack 0, by decide,
    by decide⟩
  · have := Position.loop_eq_index deepEqual needle haystack 0 i
    simpa [Position] using this
  · rcases Position.loop_range deepEqual needle haystack 0 with h | ⟨i, hi, h⟩
    · exact Or.inl h
    · exact Or.inr ⟨i, hi, by simpa [Position] using h⟩

/-! ## Theorems: `RedirectChannelsToWithTimeout` at call time -/

theorem buildCases_error_iff (xs : List Value) :
    (∃ msg, buildCases xs = .error msg) ↔ ∃ x ∈ xs, x = .zero ∨ x = .ptr .zero := by
  induction xs with
  | nil => simp [buildCases]
  | cons x rest ih =>
    cases x with
    | zero => simp [buildCases, Value.Kind, Value.Interface]
    | other =>
      cases h : buildCases rest <;> simp [buildCases, Value.Kind, Value.Interface, h] at ih ⊢
      · exact ih
      · exact ih
    | chan dir elem id =>
      cases h : buildCases rest <;> simp [buildCases, Value.Kind, Value.Interface, h] at ih ⊢
      · exact ih
      · exact ih
    | iface d =>
      cases h : buildCases rest <;> simp [buildCases, Value.Kind, Value.Interface, h] at ih ⊢
      · exact ih
      · exact ih
    | ptr p =>
      cases p with
      | zero => simp [buildCases, Value.Kind, Value.Elem, Value.Interface]
      | other =>
        cases h : buildCases rest <;>
          simp [buildCases, Value.Kind, Value.Elem, Value.Interface, h] at ih ⊢
        · exact ih
        · exact ih
      | chan dir elem id =>
        cases h : buildCases rest <;>
          simp [buildCases, Value.Kind, Value.Elem, Value.Interface, h] at ih ⊢
        · exact ih
        · exact ih
      | iface d =>
        cases h : buildCases rest <;>
          simp [buildCases, Value.Kind, Value.Elem, Value.Interface, h] at ih ⊢
        · exact ih
        · exact ih
      | ptr q =>
        cases h : buildCases rest <;>
          simp [buildCases, Value.Kind, Value.Elem, Value.Interface, h] at ih ⊢
        · exact ih
        · exact ih

theorem buildCases_ok_of_channels (xs : List Value)
    (h : xs.all isChannel = true ∨ xs.all isChannelPtr = true ∨
      xs.all isChannelIface = true) :
    ∃ cs, buildCases xs = .ok cs := by
  cases hb : buildCases xs with
  | ok cs => exact ⟨cs, rfl⟩
  | error msg =>
    exfalso
    obtain ⟨x, hx, hz⟩ := (buildCases_error_iff xs).1 ⟨msg, hb⟩
    rcases h with h | h | h
    · have := List.all_eq_true.1 h x hx
      rcases hz with hz | hz <;> subst hz <;> simp [isChannel] at this
    · have := List.all_eq_true.1 h x hx
      rcases hz with hz | hz <;> subst hz <;> simp [isChannelPtr] at this
    · have := List.all_eq_true.1 h x hx
      rcases hz with hz | hz <;> subst hz <;> simp [isChannelIface] at this

theorem buildCases_error_msg (xs : List Value) (msg : String)
    (h : buildCases xs = .error msg) :
    msg = "reflect: call of reflect.Value.Interface on zero Value" := by
  induction xs with
  | nil => simp [buildCases] at h
  | cons x rest ih =>
    unfold buildCases at h
    split at h
    · rename_i m hm
      injection h with h
      subst h
      split at hm
      · cases hx : x.Elem <;> simp [hx, Value.Interface] at hm
        exact hm.symm
      · cases x <;> simp [Value.Interface] at hm
        exact hm.symm
    · split at h
      · rename_i m hm
        injection h with h
        subst h
        exact ih hm
      · simp at h

theorem buildCases_vals (xs : List Value) (cs : List CaseChan) (h : buildCases xs = .ok cs) :
    cs.length = xs.length ∧ ∀ c ∈ cs, ∃ v, c = .val v := by
  induction xs generalizing cs with
  | nil =>
    simp [buildCases] at h
    subst h
    simp
  | cons x rest ih =>
    unfold buildCases at h
    split at h
    · simp at h
    · split at h
      · simp at h
      · rename_i cs' hcs
        injection h with h
        subst h
        obtain ⟨hl, hv⟩ := ih cs' hcs
        refine ⟨by simp [hl], ?_⟩
        intro c' hc'
        rcases List.mem_cons.1 hc' with h1 | h1
        · exact ⟨_, h1⟩
        · exact hv c' h1

theorem RedirectChannelsToWithTimeout_eq (input : Input) (output : Value) (timeout : Int) :
    RedirectChannelsToWithTimeout input output timeout =
      if input.Kind ≠ .Array ∧ input.Kind ≠ .Slice then .error "Incorrect input channels type"
      else if output.Kind ≠ .Chan then .error "Incorrect output channel type"
      else
        match buildCases input.elems with
        | .error msg => .error msg
        | .ok cs =>
          .ok ⟨cs ++ [.kill] ++ (if timeout = 0 then [] else [.timer]), output⟩ := by
  unfold RedirectChannelsToWithTimeout
  by_cases ht : timeout = 0
  · simp only [ht, if_true, List.append_nil]
  · simp only [ht, if_false]

/-- C6 as stated fails: a slice holding a value that is not a channel, and an
`output` that is receive-only, are not the required shape, yet the call does not
fail and the background task is started. -/
theorem call_accepts_wrong_shapes :
    shapeRequired (.slice [.other]) (.chan .BothDir .int 9) = false ∧
    RedirectChannelsToWithTimeout (.slice [.other]) (.chan .BothDir .int 9) 0 =
      .ok ⟨[.val .other, .kill], .chan .BothDir .int 9⟩ ∧
    shapeRequired (.slice [.chan .BothDir .int 1]) (.chan .RecvDir .int 9) = false ∧
    RedirectChannelsToWithTimeout (.slice [.chan .BothDir .int 1]) (.chan .RecvDir .int 9) 0 =
      .ok ⟨[.val (.chan .BothDir .int 1), .kill], .chan .RecvDir .int 9⟩ := by
  decide

/-- C6, amended: at call time `RedirectChannelsToWithTimeout` checks only that
`inputs` is an array or slice and that `output` is of kind `Chan`; the kinds of the
elements of `inputs` and the direction of `output` are not checked. It panics with
"Incorrect input channels type" exactly when `inputs` is neither array nor slice,
with "Incorrect output channel type" exactly when `inputs` passes and `output` is
not a channel (of any direction), and it fails at all exactly in these two cases or
when an element is a nil pointer (or invalid); whenever both shapes are as required
the background task is started. -/
theorem call_time_checks (input : Input) (output : Value) (timeout : Int) :
    (RedirectChannelsToWithTimeout input output timeout = .error "Incorrect input channels type" ↔
      (input.Kind ≠ .Array ∧ input.Kind ≠ .Slice)) ∧
    (RedirectChannelsToWithTimeout input output timeout = .error "Incorrect output channel type" ↔
      ((input.Kind = .Array ∨ input.Kind = .Slice) ∧ output.Kind ≠ .Chan)) ∧
    ((∃ msg, RedirectChannelsToWithTimeout input output timeout = .error msg) ↔
      ((input.Kind ≠ .Array ∧ input.Kind ≠ .Slice) ∨ output.Kind ≠ .Chan ∨
        ∃ x ∈ input.elems, x = .zero ∨ x = .ptr .zero)) ∧
    (shapeRequired input output = true →
      ∃ g, RedirectChannelsToWithTimeout input output timeout = .ok g) := by
  have hb := buildCases_error_iff input.elems
  rw [RedirectChannelsToWithTimeout_eq]
  refine ⟨?_, ?_, ?_, ?_⟩
  · by_cases hk : input.Kind ≠ .Array ∧ input.Kind ≠ .Slice
    · simp [hk]
    · by_cases ho : output.Kind ≠ .Chan
      · simp [hk, ho]
      · simp only [hk, ho, if_false, iff_false]
        cases hc : buildCases input.elems with
        | ok cs => simp
        | error msg =>
          have := buildCases_error_msg _ _ hc
          subst this
          simp only []
          intro h
          injection h with h
          revert h
          decide
  · by_cases hk : input.Kind ≠ .Array ∧ input.Kind ≠ .Slice
    · have hk' : ¬ (input.Kind = .Array ∨ input.Kind = .Slice) := by tauto
      simp [hk, hk']
    · have hk' : input.Kind = .Array ∨ input.Kind = .Slice := by tauto
      by_cases ho : output.Kind ≠ .Chan
      · simp [hk, ho, hk']
      · simp only [hk, ho, if_false, and_false, iff_false]
        cases hc : buildCases input.elems with
        | ok cs => simp
        | error msg =>
          have := buildCases_error_msg _ _ hc
          subst this
          simp only []
          intro h
          injection h with h
          revert h
          decide
  · by_cases hk : input.Kind ≠ .Array ∧ input.Kind ≠ .Slice
    · simp [hk]
    · by_cases ho : output.Kind ≠ .Chan
      · simp [hk, ho]
      · simp only [hk, ho, if_false, false_or]
        rw [← hb]
        cases hc : buildCases input.elems with
        | ok cs => simp
        | error msg => simp
  · intro hs
    simp only [shapeRequired, Bool.and_eq_true, Bool.or_eq_true, beq_iff_eq] at hs
    obtain ⟨⟨hk, he⟩, ho⟩ := hs
    have hk' : ¬ (input.Kind ≠ .Array ∧ input.Kind ≠ .Slice) := by tauto
    have ho' : ¬ output.Kind ≠ .Chan := by
      cases output <;> simp [Value.Kind] at ho ⊢
    obtain ⟨cs, hcs⟩ := buildCases_ok_of_channels _ (by tauto)
    simp only [hk', ho', if_false, hcs]
    exact ⟨_, rfl⟩

/-! ## Theorems: the background task -/

theorem innerLoop_spin (output : Value) (tr : List Selected) (cases : List CaseChan)
    (remaining : Nat) (h : remaining = 0 ∧ cases.length = 0) :
    innerLoop output tr cases remaining = ⟨.spinning, []⟩ := by
  cases tr <;> simp [innerLoop, h]

theorem innerLoop_panic (output : Value) (tr : List Selected) (cases : List CaseChan)
    (remaining : Nat) (h : ¬ (remaining = 0 ∧ cases.length = 0))
    (hsel : selectPanics cases = true) :
    innerLoop output tr cases remaining =
      ⟨.panicked "reflect.Select: case is not a channel", []⟩ := by
  cases tr <;> (rw [innerLoop]; simp only [h, if_false, hsel, if_true])

theorem innerLoop_nil' (output : Value) (cases : List CaseChan) (remaining : Nat)
    (h : ¬ (remaining = 0 ∧ cases.length = 0)) (hsel : selectPanics cases = false) :
    innerLoop output [] cases remaining =
      ⟨.selecting cases (if remaining = 0 then cases.length else remaining), []⟩ := by
  rw [innerLoop]
  simp only [h, if_false, hsel, Bool.false_eq_true]

theorem innerLoop_cons' (output : Value) (cases : List CaseChan) (remaining : Nat)
    (s : Selected) (rest : List Selected)
    (h : ¬ (remaining = 0 ∧ cases.length = 0)) (hsel : selectPanics cases = false) :
    innerLoop output (s :: rest) cases remaining =
      match iteration output cases (if remaining = 0 then cases.length else remaining) s with
      | .next cs r events =>
        ⟨(innerLoop output rest cs r).status, events ++ (innerLoop output rest cs r).events⟩
      | .returned => ⟨.returned, []⟩
      | .panicked events msg => ⟨.panicked msg, events⟩ := by
  rw [innerLoop]
  simp only [h, if_false, hsel, Bool.false_eq_true]

theorem innerLoop_nil (output : Value) (cases : List CaseChan) (remaining : Nat)
    (hne : cases ≠ []) (hsel : selectPanics cases = false) :
    innerLoop output [] cases remaining =
      ⟨.selecting cases (if remaining = 0 then cases.length else remaining), []⟩ :=
  innerLoop_nil' output cases remaining (by simp [hne]) hsel

theorem innerLoop_cons (output : Value) (cases : List CaseChan) (remaining : Nat)
    (s : Selected) (rest : List Selected)
    (hne : cases ≠ []) (hsel : selectPanics cases = false) :
    innerLoop output (s :: rest) cases remaining =
      match iteration output cases (if remaining = 0 then cases.length else remaining) s with
      | .next cs r events =>
        ⟨(innerLoop output rest cs r).status, events ++ (innerLoop output rest cs r).events⟩
      | .returned => ⟨.returned, []⟩
      | .panicked events msg => ⟨.panicked msg, events⟩ :=
  innerLoop_cons' output cases remaining s rest (by simp [hne]) hsel

theorem ne_nil_of_getElem? {α : Type} (xs : List α) (i : Nat) (x : α) (h : xs[i]? = some x) :
    xs ≠ [] := by
  intro he
  subst he
  simp at h

theorem iteration_returned_iff (output : Value) (cases : List CaseChan) (remaining : Nat)
    (s : Selected) :
    iteration output cases remaining s = .returned ↔
      (cases[s.chosen]? = some .kill ∧ s.ok = true) := by
  unfold iteration
  cases hc : cases[s.chosen]? with
  | none => simp
  | some c =>
    cases hok : s.ok with
    | false => simp
    | true =>
      simp only [Bool.not_true, Bool.false_eq_true, if_false, Option.some.injEq, and_true]
      split
      · simp
      · simp
      · rename_i hz hk
        constructor
        · intro h
          split at h
          · simp at h
          · split at h <;> simp at h
        · intro h
          exact absurd h (by simpa using hk)

theorem iteration_next_cases (output : Value) (cases : List CaseChan) (remaining : Nat)
    (s : Selected) (cs : List CaseChan) (r : Nat) (events : List Event)
    (h : iteration output cases remaining s = .next cs r events) :
    cs = (if s.ok then cases else cases.set s.chosen (.val .zero)) := by
  unfold iteration at h
  cases hc : cases[s.chosen]? with
  | none => simp [hc] at h
  | some c =>
    cases hok : s.ok with
    | false =>
      simp [hc, hok] at h
      simp [h.1]
    | true =>
      simp only [hc, hok, Bool.not_true, Bool.false_eq_true, if_false] at h
      split at h
      · simp at h
      · simp at h
      · split at h
        · simp at h
        · split at h
          · simp at h
            simp [h.1]
          · simp at h

theorem innerLoop_norm (output : Value) (tr : List Selected) (cases : List CaseChan)
    (remaining : Nat) :
    innerLoop output tr cases (if remaining = 0 then cases.length else remaining) =
      innerLoop output tr cases remaining := by
  by_cases hr : remaining = 0
  · subst hr
    by_cases hl : cases.length = 0
    · simp [hl]
    · have h1 : ¬ (cases.length = 0 ∧ cases.length = 0) := by tauto
      have h2 : ¬ ((0 : Nat) = 0 ∧ cases.length = 0) := by tauto
      simp only [if_true]
      by_cases hsel : selectPanics cases = true
      · rw [innerLoop_panic _ _ _ _ h1 hsel, innerLoop_panic _ _ _ _ h2 hsel]
      · simp only [Bool.not_eq_true] at hsel
        cases tr with
        | nil =>
          rw [innerLoop_nil' _ _ _ h1 hsel, innerLoop_nil' _ _ _ h2 hsel]
          simp [hl]
        | cons s rest =>
          rw [innerLoop_cons' _ _ _ _ _ h1 hsel, innerLoop_cons' _ _ _ _ _ h2 hsel]
          simp [hl]
  · simp [hr]

theorem innerLoop_selecting (output : Value) (tr : List Selected) (cases : List CaseChan)
    (remaining : Nat) (cs : List CaseChan) (r : Nat)
    (h : (innerLoop output tr cases remaining).status = .selecting cs r) :
    cs = closeAll cases tr ∧ selectPanics cs = false ∧ r ≠ 0 := by
  induction tr generalizing cases remaining with
  | nil =>
    by_cases hsp : remaining = 0 ∧ cases.length = 0
    · rw [innerLoop_spin _ _ _ _ hsp] at h
      simp at h
    · by_cases hsel : selectPanics cases = true
      · rw [innerLoop_panic _ _ _ _ hsp hsel] at h
        simp at h
      · simp only [Bool.not_eq_true] at hsel
        rw [innerLoop_nil' _ _ _ hsp hsel] at h
        simp only [Status.selecting.injEq] at h
        obtain ⟨h1, h2⟩ := h
        subst h1
        refine ⟨rfl, hsel, ?_⟩
        · intro hr0
          subst hr0
          by_cases hr : remaining = 0
          · simp [hr] at h2 hsp
            exact hsp h2
          · simp [hr] at h2
  | cons s rest ih =>
    by_cases hsp : remaining = 0 ∧ cases.length = 0
    · rw [innerLoop_spin _ _ _ _ hsp] at h
      simp at h
    · by_cases hsel : selectPanics cases = true
      · rw [innerLoop_panic _ _ _ _ hsp hsel] at h
        simp at h
      · simp only [Bool.not_eq_true] at hsel
        rw [innerLoop_cons' _ _ _ _ _ hsp hsel] at h
        split at h
        · rename_i cs' r' evs hit
          have hcs := iteration_next_cases _ _ _ _ _ _ _ hit
          have := ih _ _ h
          rw [hcs] at this
          simpa [closeAll] using this
        · simp at h
        · simp at h

theorem innerLoop_append (output : Value) (tr1 tr2 : List Selected) (cases : List CaseChan)
    (remaining : Nat) (cs : List CaseChan) (r : Nat)
    (h : (innerLoop output tr1 cases remaining).status = .selecting cs r) :
    innerLoop output (tr1 ++ tr2) cases remaining =
      ⟨(innerLoop output tr2 cs r).status,
        (innerLoop output tr1 cases remaining).events ++ (innerLoop output tr2 cs r).events⟩ := by
  induction tr1 generalizing cases remaining with
  | nil =>
    by_cases hsp : remaining = 0 ∧ cases.length = 0
    · rw [innerLoop_spin _ _ _ _ hsp] at h
      simp at h
    · by_cases hsel : selectPanics cases = true
      · rw [innerLoop_panic _ _ _ _ hsp hsel] at h
        simp at h
      · simp only [Bool.not_eq_true] at hsel
        rw [innerLoop_nil' _ _ _ hsp hsel] at h ⊢
        simp only [Status.selecting.injEq] at h
        obtain ⟨h1, h2⟩ := h
        subst h1 h2
        simp [innerLoop_norm]
  | cons s rest ih =>
    by_cases hsp : remaining = 0 ∧ cases.length = 0
    · rw [innerLoop_spin _ _ _ _ hsp] at h
      simp at h
    · by_cases hsel : selectPanics cases = true
      · rw [innerLoop_panic _ _ _ _ hsp hsel] at h
        simp at h
      · simp only [Bool.not_eq_true] at hsel
        rw [innerLoop_cons' _ _ _ _ _ hsp hsel] at h
        rw [List.cons_append, innerLoop_cons' _ _ _ _ _ hsp hsel,
          innerLoop_cons' _ _ _ _ _ hsp hsel]
        split at h
        · rename_i cs' r' evs hit
          simp only [hit]
          rw [ih _ _ h]
          simp
        · simp at h
        · simp at h

theorem innerLoop_not_returned (output : Value) (tr : List Selected) (cases : List CaseChan)
    (remaining : Nat) (h : ∀ s ∈ tr, ¬ (s.ok = true ∧ cases[s.chosen]? = some .kill)) :
    (innerLoop output tr cases remaining).status ≠ .returned := by
  induction tr generalizing cases remaining with
  | nil =>
    by_cases hsp : remaining = 0 ∧ cases.length = 0
    · rw [innerLoop_spin _ _ _ _ hsp]; simp
    · by_cases hsel : selectPanics cases = true
      · rw [innerLoop_panic _ _ _ _ hsp hsel]; simp
      · simp only [Bool.not_eq_true] at hsel
        rw [innerLoop_nil' _ _ _ hsp hsel]; simp
  | cons s rest ih =>
    by_cases hsp : remaining = 0 ∧ cases.length = 0
    · rw [innerLoop_spin _ _ _ _ hsp]; simp
    · by_cases hsel : selectPanics cases = true
      · rw [innerLoop_panic _ _ _ _ hsp hsel]; simp
      · simp only [Bool.not_eq_true] at hsel
        rw [innerLoop_cons' _ _ _ _ _ hsp hsel]
        split
        · rename_i cs' r' evs hit
          have hcs := iteration_next_cases _ _ _ _ _ _ _ hit
          apply ih
          intro s' hs'
          have h' := h s' (List.mem_cons_of_mem _ hs')
          intro ⟨hok, hk⟩
          apply h'
          refine ⟨hok, ?_⟩
          rw [hcs] at hk
          split at hk
          · exact hk
          · rw [List.getElem?_set] at hk
            split at hk
            · split at hk <;> simp at hk
            · exact hk
        · rename_i hit
          have := (iteration_returned_iff _ _ _ _).1 hit
          exact absurd ⟨this.2, this.1⟩ (h s (List.mem_cons_self _ _))
        · simp

/-- C4: whatever the case set the task has reached, when `reflect.Select` reports a
value received on the kill channel (`ok = true`, any value), the body returns in that
iteration with nothing sent on `output` or on the timeout-notification channel, and
no later result is consumed: the run ends `returned` with the events it had before,
whatever results follow. -/
theorem kill_value_returns (output : Value) (cases0 : List CaseChan) (remaining0 : Nat)
    (pre : List Selected) (cases : List CaseChan) (remaining : Nat)
    (s : Selected) (rest : List Selected)
    (hpre : (innerLoop output pre cases0 remaining0).status = .selecting cases remaining)
    (hkill : cases[s.chosen]? = some .kill) (hok : s.ok = true) :
    iteration output cases remaining s = .returned ∧
    innerLoop output (pre ++ s :: rest) cases0 remaining0 =
      ⟨.returned, (innerLoop output pre cases0 remaining0).events⟩ := by
  have hit : ∀ r, iteration output cases r s = .returned := by
    intro r
    simp [iteration, hkill, hok]
  obtain ⟨_, hsel, _⟩ := innerLoop_selecting _ _ _ _ _ _ hpre
  refine ⟨hit _, ?_⟩
  rw [innerLoop_append _ _ _ _ _ _ _ hpre,
    innerLoop_cons _ _ _ _ _ (ne_nil_of_getElem? _ _ _ hkill) hsel, hit]
  simp

theorem kill_value_returns_witness :
    iteration (.chan .BothDir .int 9) [.val (.chan .BothDir .int 1), .kill, .timer] 3
        ⟨1, 0, true⟩ = .returned ∧
    innerLoop (.chan .BothDir .int 9) ([⟨0, 7, true⟩] ++ ⟨1, 0, true⟩ :: [⟨0, 5, true⟩])
        [.val (.chan .BothDir .int 1), .kill, .timer] 3 =
      ⟨.returned, (innerLoop (.chan .BothDir .int 9) [⟨0, 7, true⟩]
        [.val (.chan .BothDir .int 1), .kill, .timer] 3).events⟩ :=
  kill_value_returns (.chan .BothDir .int 9) [.val (.chan .BothDir .int 1), .kill, .timer] 3
    [⟨0, 7, true⟩] [.val (.chan .BothDir .int 1), .kill, .timer] 3
    ⟨1, 0, true⟩ [⟨0, 5, true⟩] (by decide) (by decide) (by decide)

/-- C3: evaluation of the code where the deadline timer wins the select. With inputs
`[A]`, a timeout and an `output` of element type `time.Time`, the iteration sends
the timestamp on the timeout-notification channel and then also on `output`; with an
`output` of element type `int` it sends the timestamp on the timeout-notification
channel and then panics in `output.Send`. In neither case does it leave `output`
untouched and continue. -/
theorem timer_case_falls_through_to_output :
    RedirectChannelsToWithTimeout (.slice [.chan .BothDir .time 1]) (.chan .BothDir .time 9)
        50000000 =
      .ok ⟨[.val (.chan .BothDir .time 1), .kill, .timer], .chan .BothDir .time 9⟩ ∧
    goroutine ⟨[.val (.chan .BothDir .time 1), .kill, .timer], .chan .BothDir .time 9⟩
        [⟨2, 1000, true⟩] =
      ⟨.selecting [.val (.chan .BothDir .time 1), .kill, .timer] 3,
        [.timeoutNotification 1000, .output 1000]⟩ ∧
    RedirectChannelsToWithTimeout (.slice [.chan .BothDir .int 1]) (.chan .BothDir .int 9)
        50000000 =
      .ok ⟨[.val (.chan .BothDir .int 1), .kill, .timer], .chan .BothDir .int 9⟩ ∧
    goroutine ⟨[.val (.chan .BothDir .int 1), .kill, .timer], .chan .BothDir .int 9⟩
        [⟨2, 1000, true⟩] =
      ⟨.panicked "reflect.Value.Send: value is not assignable to the element type",
        [.timeoutNotification 1000]⟩ := by
  decide

/-- C1 as stated fails: with inputs `[A, B]`, when the select reports the kill
channel closed (`ok = false`) the body does not return as it does for a value
received on kill; the task goes on and forwards a value of `A` to `output`. -/
theorem kill_closed_does_not_terminate :
    RedirectChannelsTo (.slice [.chan .BothDir .int 1, .chan .BothDir .int 2])
        (.chan .BothDir .int 9) =
      .ok ⟨[.val (.chan .BothDir .int 1), .val (.chan .BothDir .int 2), .kill],
        .chan .BothDir .int 9⟩ ∧
    iteration (.chan .BothDir .int 9)
        [.val (.chan .BothDir .int 1), .val (.chan .BothDir .int 2), .kill] 3 ⟨2, 1, true⟩ =
      .returned ∧
    iteration (.chan .BothDir .int 9)
        [.val (.chan .BothDir .int 1), .val (.chan .BothDir .int 2), .kill] 3 ⟨2, 0, false⟩ =
      .next [.val (.chan .BothDir .int 1), .val (.chan .BothDir .int 2), .val .zero] 2 [] ∧
    goroutine ⟨[.val (.chan .BothDir .int 1), .val (.chan .BothDir .int 2), .kill],
        .chan .BothDir .int 9⟩ [⟨2, 0, false⟩, ⟨0, 5, true⟩] =
      ⟨.selecting [.val (.chan .BothDir .int 1), .val (.chan .BothDir .int 2), .val .zero] 2,
        [.output 5]⟩ := by
  decide

theorem innerLoop_nil_events (output : Value) (cases : List CaseChan) (remaining : Nat) :
    (innerLoop output [] cases remaining).events = [] := by
  by_cases hsp : remaining = 0 ∧ cases.length = 0
  · rw [innerLoop_spin _ _ _ _ hsp]
  · by_cases hsel : selectPanics cases = true
    · rw [innerLoop_panic _ _ _ _ hsp hsel]
    · simp only [Bool.not_eq_true] at hsel
      rw [innerLoop_nil' _ _ _ hsp hsel]

theorem started_cases (input : Input) (output : Value) (timeout : Int) (g : Goroutine)
    (h : RedirectChannelsToWithTimeout input output timeout = .ok g) :
    ∃ built, buildCases input.elems = .ok built ∧
      g = ⟨built ++ [.kill] ++ (if timeout = 0 then [] else [.timer]), output⟩ := by
  rw [RedirectChannelsToWithTimeout_eq] at h
  split at h
  · simp at h
  · split at h
    · simp at h
    · cases hb : buildCases input.elems with
      | error msg => simp [hb] at h
      | ok built =>
        simp only [hb] at h
        injection h with h
        exact ⟨built, rfl, h.symm⟩

theorem count_kill_built (xs : List Value) (built : List CaseChan)
    (h : buildCases xs = .ok built) : built.count .kill = 0 := by
  rw [List.count_eq_zero]
  intro hm
  obtain ⟨v, hv⟩ := (buildCases_vals xs built h).2 _ hm
  simp at hv

theorem started_count_kill (input : Input) (output : Value) (timeout : Int) (g : Goroutine)
    (h : RedirectChannelsToWithTimeout input output timeout = .ok g) :
    g.cases.count .kill = 1 := by
  obtain ⟨built, hb, hg⟩ := started_cases _ _ _ _ h
  subst hg
  have := count_kill_built _ _ hb
  by_cases ht : timeout = 0 <;> simp [ht, List.count_append, this]

theorem count_kill_set_zero (cases : List CaseChan) (i : Nat) :
    (cases.set i (.val .zero)).count .kill ≤ cases.count .kill := by
  by_cases hi : i < cases.length
  · rw [List.count_set _ _ _ _ hi]
    simp
  · rw [List.set_eq_of_length_le (by omega)]

theorem count_kill_closeAll (cases : List CaseChan) (tr : List Selected) :
    (closeAll cases tr).count .kill ≤ cases.count .kill := by
  induction tr generalizing cases with
  | nil => simp [closeAll]
  | cons s rest ih =>
    simp only [closeAll, List.foldl_cons] at ih ⊢
    refine le_trans (ih _) ?_
    split
    · exact le_refl _
    · exact count_kill_set_zero _ _

theorem kill_not_mem_set (cases : List CaseChan) (i : Nat) (hc : cases.count .kill ≤ 1)
    (hk : cases[i]? = some .kill) : CaseChan.kill ∉ cases.set i (.val .zero) := by
  have hi : i < cases.length := by
    rcases Nat.lt_or_ge i cases.length with h | h
    · exact h
    · rw [List.getElem?_eq_none h] at hk
      simp at hk
  rw [← List.count_eq_zero, List.count_set _ _ _ _ hi]
  have hget : cases[i] = CaseChan.kill := by
    rw [List.getElem?_eq_getElem hi] at hk
    simpa using hk
  simp [hget]
  omega

/-- C1, amended: when the select reports the kill channel closed (`ok = false`) the
task does not return. The body sends nothing, disables the kill case as it does for
any closed channel, decrements `remaining` and loops on; and since the kill case is
now disabled, no later select result makes the task return. Only a value received on
kill (`ok = true`) terminates it. -/
theorem kill_closed_continues (input : Input) (output : Value) (timeout : Int)
    (g : Goroutine) (pre : List Selected) (cs : List CaseChan) (r : Nat) (s : Selected)
    (hstart : RedirectChannelsToWithTimeout input output timeout = .ok g)
    (hpre : (goroutine g pre).status = .selecting cs r)
    (hkill : cs[s.chosen]? = some .kill) (hok : s.ok = false) :
    iteration g.output cs r s = .next (cs.set s.chosen (.val .zero)) (r - 1) [] ∧
    (goroutine g (pre ++ [s])).events = (goroutine g pre).events ∧
    (∀ post, (goroutine g (pre ++ s :: post)).status ≠ .returned) := by
  have hit : iteration g.output cs r s = .next (cs.set s.chosen (.val .zero)) (r - 1) [] := by
    simp [iteration, hkill, hok]
  obtain ⟨hcs, hsel, hr⟩ := innerLoop_selecting _ _ _ _ _ _ hpre
  have hsp : ¬ (r = 0 ∧ cs.length = 0) := fun h => hr h.1
  have hcount : cs.count .kill ≤ 1 := by
    rw [hcs]
    exact le_trans (count_kill_closeAll _ _) (le_of_eq (started_count_kill _ _ _ _ hstart))
  have hrun : ∀ post, innerLoop g.output (s :: post) cs r =
      ⟨(innerLoop g.output post (cs.set s.chosen (.val .zero)) (r - 1)).status,
        (innerLoop g.output post (cs.set s.chosen (.val .zero)) (r - 1)).events⟩ := by
    intro post
    rw [innerLoop_cons' _ _ _ _ _ hsp hsel]
    simp only [hr, if_false, hit, List.nil_append]
  refine ⟨hit, ?_, ?_⟩
  · unfold goroutine at hpre ⊢
    rw [innerLoop_append _ _ _ _ _ _ _ hpre, hrun, innerLoop_nil_events]
    simp
  · intro post
    unfold goroutine at hpre ⊢
    rw [innerLoop_append _ _ _ _ _ _ _ hpre, hrun]
    apply innerLoop_not_returned
    intro s' _ hs'
    exact kill_not_mem_set cs s.chosen hcount hkill (List.mem_iff_getElem?.2 ⟨_, hs'.2⟩)

theorem kill_closed_continues_witness :
    iteration (.chan .BothDir .int 9)
        [.val (.chan .BothDir .int 1), .val (.chan .BothDir .int 2), .kill] 3 ⟨2, 0, false⟩ =
      .next ([.val (.chan .BothDir .int 1), .val (.chan .BothDir .int 2), .kill].set 2
        (.val .zero)) (3 - 1) [] ∧
    (goroutine ⟨[.val (.chan .BothDir .int 1), .val (.chan .BothDir .int 2), .kill],
        .chan .BothDir .int 9⟩ ([] ++ [⟨2, 0, false⟩])).events =
      (goroutine ⟨[.val (.chan .BothDir .int 1), .val (.chan .BothDir .int 2), .kill],
        .chan .BothDir .int 9⟩ []).events ∧
    (∀ post, (goroutine ⟨[.val (.chan .BothDir .int 1), .val (.chan .BothDir .int 2), .kill],
        .chan .BothDir .int 9⟩ ([] ++ ⟨2, 0, false⟩ :: post)).status ≠ .returned) :=
  kill_closed_continues (.slice [.chan .BothDir .int 1, .chan .BothDir .int 2])
    (.chan .BothDir .int 9) 0
    ⟨[.val (.chan .BothDir .int 1), .val (.chan .BothDir .int 2), .kill], .chan .BothDir .int 9⟩
    [] [.val (.chan .BothDir .int 1), .val (.chan .BothDir .int 2), .kill] 3 ⟨2, 0, false⟩
    (by decide) (by decide) (by decide) (by decide)

theorem selectPanics_set_zero (cases : List CaseChan) (i : Nat)
    (h : selectPanics cases = false) : selectPanics (cases.set i (.val .zero)) = false := by
  unfold selectPanics at h ⊢
  rw [List.any_eq_false] at h ⊢
  intro c hc
  rcases List.mem_or_eq_of_mem_set hc with h1 | h1
  · exact h c h1
  · subst h1
    simp

theorem started_kill_index (input : Input) (output : Value) (g : Goroutine)
    (h : RedirectChannelsTo input output = .ok g) :
    ∃ built : List CaseChan, built.length = input.elems.length ∧
      (∀ c ∈ built, ∃ v, c = .val v) ∧ g = ⟨built ++ [.kill], output⟩ := by
  obtain ⟨built, hb, hg⟩ := started_cases _ _ _ _ h
  refine ⟨built, (buildCases_vals _ _ hb).1, (buildCases_vals _ _ hb).2, ?_⟩
  simpa using hg

theorem CasesOK_set_zero (output : Value) (n : Nat) (cs : List CaseChan) (k : Nat)
    (h : CasesOK output n cs) : CasesOK output n (cs.set k (.val .zero)) := by
  refine ⟨selectPanics_set_zero _ _ h.1, ?_⟩
  intro i c hc
  rw [List.getElem?_set] at hc
  split at hc
  · split at hc
    · left
      simpa using hc.symm
    · simp at hc
  · exact h.2 i c hc

theorem CasesOK_started (input : Input) (output : Value) (g : Goroutine)
    (hstart : RedirectChannelsTo input output = .ok g) (htyped : g.wellTyped = true) :
    CasesOK g.output input.elems.length g.cases := by
  obtain ⟨built, hlen, hvals, hg⟩ := started_kill_index _ _ _ hstart
  subst hg
  simp only [Goroutine.wellTyped, Bool.and_eq_true, Bool.not_eq_true', List.all_eq_true] at htyped
  obtain ⟨hsel, hall⟩ := htyped
  refine ⟨hsel, ?_⟩
  intro i c hc
  simp only at hc
  rw [List.getElem?_append] at hc
  split at hc
  · rename_i hlt
    rw [List.getElem?_eq_getElem hlt] at hc
    have hmem : c ∈ built := by
      have := List.getElem_mem hlt
      simp only [Option.some.injEq] at hc
      rw [hc] at this
      exact this
    obtain ⟨v, hv⟩ := hvals c hmem
    subst hv
    have hmem' : CaseChan.val v ∈ built ++ [CaseChan.kill] := List.mem_append_left _ hmem
    cases v with
    | zero => left; rfl
    | chan dir elem id =>
      right; right
      refine ⟨by omega, dir, elem, id, rfl, ?_⟩
      simpa using hall _ hmem'
    | other =>
      exfalso
      unfold selectPanics at hsel
      rw [List.any_eq_false] at hsel
      have := hsel _ hmem'
      simp at this
    | ptr q =>
      exfalso
      unfold selectPanics at hsel
      rw [List.any_eq_false] at hsel
      have := hsel _ hmem'
      simp at this
    | iface d =>
      exfalso
      unfold selectPanics at hsel
      rw [List.any_eq_false] at hsel
      have := hsel _ hmem'
      simp at this
  · rename_i hge
    right; left
    have h0 : i - built.length = 0 := by
      by_contra hne
      obtain ⟨k, hk'⟩ := Nat.exists_eq_succ_of_ne_zero hne
      rw [hk'] at hc
      simp at hc
    rw [h0] at hc
    simp at hc
    exact ⟨hc.symm, by omega⟩

theorem forwarding_invariant (output : Value) (n : Nat) (tr : List Selected)
    (cs : List CaseChan) (remaining : Nat)
    (hcs : CasesOK output n cs) (hadm : admissible cs tr = true) :
    outputs (innerLoop output tr cs remaining).events = forwarded n tr := by
  induction tr generalizing cs remaining with
  | nil => simp [innerLoop_nil_events, outputs, forwarded]
  | cons s rest ih =>
    simp only [admissible, Bool.and_eq_true, selectable] at hadm
    obtain ⟨hrecv, hnext⟩ := hadm
    cases hc : cs[s.chosen]? with
    | none => simp [hc] at hrecv
    | some c =>
      simp only [hc] at hrecv hnext
      have hne : cs ≠ [] := ne_nil_of_getElem? _ _ _ hc
      rw [innerLoop_cons _ _ _ _ _ hne hcs.1]
      cases hok : s.ok with
      | false =>
        simp only [hok, Bool.false_eq_true, if_false] at hnext
        have hit : ∀ r, iteration output cs r s =
            .next (cs.set s.chosen (.val .zero)) (r - 1) [] := by
          intro r
          simp [iteration, hc, hok]
        simp only [hit, List.nil_append]
        rw [ih _ _ (CasesOK_set_zero _ _ _ _ hcs) hnext]
        simp [forwarded, List.takeWhile_cons, hok, List.filter_cons]
      | true =>
        simp only [hok, if_true] at hnext
        rcases hcs.2 _ _ hc with hz | ⟨hk, hi⟩ | ⟨hi, dir, elem, id, hch, hsend⟩
        · subst hz
          simp [CaseChan.receivable] at hrecv
        · subst hk
          have hit : ∀ r, iteration output cs r s = .returned := by
            intro r
            simp [iteration, hc, hok]
          simp only [hit]
          simp [forwarded, List.takeWhile_cons, hok, hi, outputs]
        · subst hch
          simp only [Option.some.injEq, reduceCtorEq, if_false] at hnext
          have hS : Send output elem = .ok () := by
            unfold sends at hsend
            split at hsend
            · rename_i u hu
              rw [hu]
            · simp at hsend
          have hit : ∀ r, iteration output cs r s = .next cs r [.output s.value] := by
            intro r
            simp [iteration, hc, hok, CaseChan.elem, hS]
          simp only [hit]
          have hne' : s.chosen ≠ n := by omega
          show s.value :: outputs (innerLoop output rest cs _).events = _
          rw [ih _ _ hcs hnext]
          simp [forwarded, List.takeWhile_cons, hok, hne', List.filter_cons, hi]

/-- C5: for `RedirectChannelsTo` (no timeout) on a well-typed task and for every
sequence of results `reflect.Select` can return, the values sent on `output` are
exactly, in order, the values of the results with `ok = true` on input cases that
occur before the first value received on kill. A result reporting a closed input
sends nothing, disables that case and no other, and the loop goes on. -/
theorem RedirectChannelsTo_forwards (input : Input) (output : Value) (g : Goroutine)
    (tr : List Selected)
    (hstart : RedirectChannelsTo input output = .ok g)
    (htyped : g.wellTyped = true)
    (hadm : admissible g.cases tr = true) :
    outputs (goroutine g tr).events = forwarded input.elems.length tr ∧
    (∀ (cases : List CaseChan) (remaining : Nat) (s : Selected),
      s.ok = false → s.chosen < cases.length →
        iteration g.output cases remaining s =
          .next (cases.set s.chosen (.val .zero)) (remaining - 1) [] ∧
        ∀ j, j ≠ s.chosen → (cases.set s.chosen (.val .zero))[j]? = cases[j]?) := by
  refine ⟨forwarding_invariant _ _ _ _ _ (CasesOK_started _ _ _ hstart htyped) hadm, ?_⟩
  intro cases remaining s hok hlt
  refine ⟨?_, ?_⟩
  · simp [iteration, List.getElem?_eq_getElem hlt, hok]
  · intro j hj
    rw [List.getElem?_set_ne (Ne.symm hj)]

theorem RedirectChannelsTo_forwards_witness :
    RedirectChannelsTo (.slice [.chan .BothDir .int 1, .ptr (.chan .RecvDir .int 2)])
        (.chan .SendDir .int 9) =
      .ok ⟨[.val (.chan .BothDir .int 1), .val (.chan .RecvDir .int 2), .kill],
        .chan .SendDir .int 9⟩ ∧
    outputs (goroutine
        ⟨[.val (.chan .BothDir .int 1), .val (.chan .RecvDir .int 2), .kill],
          .chan .SendDir .int 9⟩
        [⟨0, 1, true⟩, ⟨1, 10, true⟩, ⟨0, 2, true⟩, ⟨0, 0, false⟩, ⟨1, 20, true⟩,
          ⟨2, 1, true⟩, ⟨1, 30, true⟩]).events =
      forwarded 2 [⟨0, 1, true⟩, ⟨1, 10, true⟩, ⟨0, 2, true⟩, ⟨0, 0, false⟩, ⟨1, 20, true⟩,
          ⟨2, 1, true⟩, ⟨1, 30, true⟩] ∧
    forwarded 2 [⟨0, 1, true⟩, ⟨1, 10, true⟩, ⟨0, 2, true⟩, ⟨0, 0, false⟩, ⟨1, 20, true⟩,
          ⟨2, 1, true⟩, ⟨1, 30, true⟩] = [1, 10, 2, 20] :=
  ⟨by decide,
    (RedirectChannelsTo_forwards
      (.slice [.chan .BothDir .int 1, .ptr (.chan .RecvDir .int 2)]) (.chan .SendDir .int 9)
      ⟨[.val (.chan .BothDir .int 1), .val (.chan .RecvDir .int 2), .kill],
        .chan .SendDir .int 9⟩
      [⟨0, 1, true⟩, ⟨1, 10, true⟩, ⟨0, 2, true⟩, ⟨0, 0, false⟩, ⟨1, 20, true⟩,
        ⟨2, 1, true⟩, ⟨1, 30, true⟩]
      (by decide) (by decide) (by decide)).1,
    by decide⟩

/-! ## Theorems: `ShuffleArray` -/

theorem ShuffleArray.loop_spec {α : Type} (rSrc rDest : Seq) (i : Nat) (vs : List Nat)
    (mem : Mem α)
    (hv : ∀ v ∈ vs, v < rDest.len) (hi : i + vs.length ≤ rSrc.len) (hnd : vs.Nodup)
    (hdisj : ∀ v ∈ vs, ∀ k, k < rSrc.len → rDest.base + v ≠ rSrc.base + k) :
    ∃ mem', ShuffleArray.loop rSrc rDest i vs mem = .ok mem' ∧
      (∀ k (hk : k < vs.length),
        mem' (rDest.base + vs.get ⟨k, hk⟩) = mem (rSrc.base + (i + k))) ∧
      (∀ a, (∀ v ∈ vs, a ≠ rDest.base + v) → mem' a = mem a) := by
  induction vs generalizing i mem with
  | nil => exact ⟨mem, rfl, by intro k hk; simp at hk, by intro a _; rfl⟩
  | cons v rest ih =>
    have hvlt : v < rDest.len := hv v (List.mem_cons_self _ _)
    have hilt : i < rSrc.len := by simp at hi; omega
    obtain ⟨hnv, hnd'⟩ := List.nodup_cons.1 hnd
    obtain ⟨mem', hrun, hplace, hframe⟩ :=
      ih (i + 1) (Function.update mem (rDest.base + v) (mem (rSrc.base + i)))
        (fun v' hv' => hv v' (List.mem_cons_of_mem _ hv'))
        (by simp at hi ⊢; omega) hnd'
        (fun v' hv' => hdisj v' (List.mem_cons_of_mem _ hv'))
    refine ⟨mem', ?_, ?_, ?_⟩
    · simp only [ShuffleArray.loop, Seq.Index, hvlt, hilt, if_true]
      exact hrun
    · intro k hk
      cases k with
      | zero =>
        simp only [List.get_eq_getElem, List.getElem_cons_zero, Nat.add_zero]
        rw [hframe _ (by
          intro v' hv' heq
          have : v = v' := by omega
          exact hnv (this ▸ hv'))]
        simp
      | succ k =>
        have hk' : k < rest.length := by simpa using hk
        have := hplace k hk'
        simp only [List.get_eq_getElem, List.getElem_cons_succ] at this ⊢
        rw [this, Function.update_noteq]
        · congr 1; omega
        · intro heq
          exact hdisj v (List.mem_cons_self _ _) (i + 1 + k) (by simp at hi; omega) heq.symm
    · intro a ha
      rw [hframe a (fun v' hv' => ha v' (List.mem_cons_of_mem _ hv'))]
      exact Function.update_noteq (ha v (List.mem_cons_self _ _)) _ _

/-- C10 as stated fails when `src` and `dst` share cells: shuffling the two-element
sequence `[1, 2]` onto itself with the permutation `[1, 0]` leaves `[1, 1]`, which is
not a permutation of `[1, 2]`, and `src` has changed. -/
theorem ShuffleArray_onto_itself :
    List.Perm [1, 0] (List.range 2) ∧
    Seq.read ⟨0, 2⟩ (fun a => if a = 0 then (1 : Int) else 2) = [1, 2] ∧
    (ShuffleArray [1, 0] ⟨0, 2⟩ ⟨0, 2⟩ (fun a => if a = 0 then (1 : Int) else 2)).map
      (Seq.read ⟨0, 2⟩) = .ok [1, 1] ∧
    ¬ List.Perm [(1 : Int), 1] [1, 2] := by
  decide

/-- C10, amended: for every `src` of length `n`, every `dst` with `len(dst) >= n`
whose first `n` cells share no cell with `src`, and every permutation `perm` of
`0..n-1`, `ShuffleArray(src, dst)` ends without panic, puts each `src[i]` at index
`perm[i]` of `dst`, so that the first `n` elements of `dst` are a permutation of the
elements of `src`, leaves the elements of `dst` at indices `>= n` unchanged, and
leaves `src` unchanged. -/
theorem ShuffleArray_permutes {α : Type} (perm : List Nat) (rSrc rDest : Seq) (mem : Mem α)
    (hperm : perm.Perm (List.range rSrc.len)) (hlen : rSrc.len ≤ rDest.len)
    (hdisj : rSrc.base + rSrc.len ≤ rDest.base ∨ rDest.base + rSrc.len ≤ rSrc.base) :
    ∃ mem', ShuffleArray perm rSrc rDest mem = .ok mem' ∧
      (∀ i (hi : i < perm.length),
        mem' (rDest.base + perm.get ⟨i, hi⟩) = mem (rSrc.base + i)) ∧
      (Seq.read ⟨rDest.base, rSrc.len⟩ mem').Perm (rSrc.read mem) ∧
      (∀ j, rSrc.len ≤ j → mem' (rDest.base + j) = mem (rDest.base + j)) ∧
      rSrc.read mem' = rSrc.read mem := by
  have hmem : ∀ v, v ∈ perm ↔ v < rSrc.len := by
    intro v
    rw [hperm.mem_iff, List.mem_range]
  have hplen : perm.length = rSrc.len := by simpa using hperm.length_eq
  obtain ⟨mem', hrun, hplace, hframe⟩ := ShuffleArray.loop_spec rSrc rDest 0 perm mem
    (fun v hv => by have := (hmem v).1 hv; omega) (by omega)
    (hperm.nodup_iff.2 (List.nodup_range _))
    (fun v hv k hk => by have := (hmem v).1 hv; omega)
  have hplace' : ∀ i (hi : i < perm.length),
      mem' (rDest.base + perm.get ⟨i, hi⟩) = mem (rSrc.base + i) := by
    intro i hi
    simpa using hplace i hi
  refine ⟨mem', hrun, hplace', ?_, ?_, ?_⟩
  · have h1 : (Seq.read ⟨rDest.base, rSrc.len⟩ mem').Perm
        (perm.map fun j => mem' (rDest.base + j)) := by
      unfold Seq.read
      exact (hperm.map _).symm
    refine h1.trans (List.Perm.of_eq ?_)
    unfold Seq.read
    apply List.ext_getElem
    · simp [hplen]
    · intro i h1 h2
      simp only [List.getElem_map, List.getElem_range]
      have := hplace' i (by simpa using h1)
      simpa using this
  · intro j hj
    apply hframe
    intro v hv
    have := (hmem v).1 hv
    omega
  · unfold Seq.read
    apply List.map_congr_left
    intro i hi
    have hi' : i < rSrc.len := List.mem_range.1 hi
    apply hframe
    intro v hv
    have := (hmem v).1 hv
    omega

theorem ShuffleArray_permutes_witness :
    ∃ mem', ShuffleArray [2, 0, 1] ⟨0, 3⟩ ⟨3, 4⟩ (fun a => (a : Int) * 10) = .ok mem' ∧
      (∀ i (hi : i < [2, 0, 1].length),
        mem' (3 + [2, 0, 1].get ⟨i, hi⟩) = (fun a => (a : Int) * 10) (0 + i)) ∧
      (Seq.read ⟨3, 3⟩ mem').Perm (Seq.read ⟨0, 3⟩ (fun a => (a : Int) * 10)) ∧
      (∀ j, 3 ≤ j → mem' (3 + j) = (fun a => (a : Int) * 10) (3 + j)) ∧
      Seq.read ⟨0, 3⟩ mem' = Seq.read ⟨0, 3⟩ (fun a => (a : Int) * 10) :=
  ShuffleArray_permutes [2, 0, 1] ⟨0, 3⟩ ⟨3, 4⟩ (fun a => (a : Int) * 10) (by decide)
    (by decide) (by decide)

end GoKafkaClient
